import Mathlib

/-!
Verification of AetherStudio backend services against their specification.

The development shallowly embeds three Python modules of the repository:
* `backend/services/cache_service.py` (`MemoryCache`),
* `backend/services/background_tasks.py` (`BackgroundTaskManager`),
* `backend/services/webhook_service.py` (`WebhookService`).

Python dictionaries that preserve insertion order (`dict`, `OrderedDict`)
are embedded as association lists `List (κ × β)` whose head is the oldest
entry; wall-clock instants (`time.time()`, `datetime.utcnow()`) are
abstract `Nat` time stamps supplied by the caller.
-/

set_option autoImplicit false

universe u v

variable {κ : Type u} {β : Type v}

/-- First value bound to key `k`, mirroring Python `dict.get(k)`. -/
def assocLookup [DecidableEq κ] (k : κ) : List (κ × β) → Option β
  | [] => none
  | p :: rest => if p.1 = k then some p.2 else assocLookup k rest

/-- Whether key `k` is bound, mirroring Python `k in d`. -/
def containsKey [DecidableEq κ] (k : κ) (l : List (κ × β)) : Bool :=
  (assocLookup k l).isSome

/-- Rewrite every binding of key `k` through `f`, leaving its position in
the dictionary unchanged (Python in-place mutation of a stored object). -/
def updateAt [DecidableEq κ] (k : κ) (f : β → β) (l : List (κ × β)) : List (κ × β) :=
  l.map fun p => if p.1 = k then (p.1, f p.2) else p

/-- Remove every binding of key `k`, mirroring Python `del d[k]`. -/
def removeKey [DecidableEq κ] (k : κ) (l : List (κ × β)) : List (κ × β) :=
  l.filter fun p => p.1 ≠ k

/-- Python `d[k] = v`: replace the value in place when the key is bound
(insertion order is kept), otherwise append the new binding at the end. -/
def assocSet [DecidableEq κ] (k : κ) (v : β) (l : List (κ × β)) : List (κ × β) :=
  if containsKey k l then updateAt k (fun _ => v) l else l ++ [(k, v)]

theorem assocLookup_updateAt [DecidableEq κ] (k : κ) (f : β → β) (l : List (κ × β)) :
    assocLookup k (updateAt k f l) = (assocLookup k l).map f := by
  induction l with
  | nil => rfl
  | cons p rest ih =>
    by_cases h : p.1 = k <;> simp [updateAt, assocLookup, h] at ih ⊢ <;> exact ih

theorem assocLookup_assocSet [DecidableEq κ] (k : κ) (v : β) (l : List (κ × β)) :
    assocLookup k (assocSet k v l) = some v := by
  unfold assocSet
  by_cases h : containsKey k l = true
  · simp only [h, if_true]
    rw [assocLookup_updateAt]
    unfold containsKey at h
    cases hl : assocLookup k l with
    | none => rw [hl] at h; simp [Option.isSome] at h
    | some b => simp
  · simp only [h]
    rw [if_neg (by simp [h])]
    unfold containsKey at h
    induction l with
    | nil => simp [assocLookup]
    | cons p rest ih =>
      by_cases hp : p.1 = k
      · simp [assocLookup, hp] at h
      · simp only [assocLookup, List.cons_append, hp, if_neg hp] at h ⊢
        exact ih h

theorem assocLookup_removeKey [DecidableEq κ] (k : κ) (l : List (κ × β)) :
    assocLookup k (removeKey k l) = none := by
  induction l with
  | nil => rfl
  | cons p rest ih =>
    by_cases h : p.1 = k <;> simp [removeKey, assocLookup, h] at ih ⊢ <;> simp [ih]

theorem assocLookup_updateAt_ne [DecidableEq κ] (k j : κ) (f : β → β) (l : List (κ × β))
    (hne : j ≠ k) : assocLookup j (updateAt k f l) = assocLookup j l := by
  induction l with
  | nil => rfl
  | cons p rest ih =>
    obtain ⟨a, b⟩ := p
    by_cases h : a = k
    · subst h
      have hkj : ¬ a = j := fun hc => hne hc.symm
      simp [updateAt, assocLookup, hkj] at ih ⊢
      exact ih
    · by_cases hj : a = j
      · subst hj
        simp [updateAt, assocLookup, h]
      · simp [updateAt, assocLookup, h, hj] at ih ⊢
        exact ih

/-! ## `MemoryCache` (backend/services/cache_service.py) -/

/-- `CacheEntry`: a cached value with metadata, from `cache_service.py`.
The stored value type is a parameter `α` (Python `Any`). -/
structure CacheEntry (α : Type u) where
  value : α
  created_at : Nat
  ttl : Nat
  hits : Nat := 0
  deriving DecidableEq, Repr

/-- `MemoryCache`: an insertion-ordered dictionary of entries plus the
configured bounds.  `entries` lists bindings oldest first, as an
`OrderedDict` iterates them. -/
structure MemoryCache (α : Type u) where
  entries : List (String × CacheEntry α)
  max_size : Nat := 100
  default_ttl : Nat := 3600
  deriving DecidableEq, Repr

variable {α : Type u}

/-- `MemoryCache.get`: TTL check (expired entries are deleted and miss),
then hit counting and `move_to_end` for LRU recency.  Returns the looked-up
value together with the cache after the call. -/
def MemoryCache.get (c : MemoryCache α) (key : String) (now : Nat) :
    Option α × MemoryCache α :=
  match assocLookup key c.entries with
  | none => (none, c)
  | some entry =>
    if now - entry.created_at > entry.ttl then
      (none, { c with entries := removeKey key c.entries })
    else
      (some entry.value,
       { c with entries :=
          removeKey key c.entries ++ [(key, { entry with hits := entry.hits + 1 })] })

/-- The eviction loop of `MemoryCache.set`:
`while len(cache) >= max_size: cache.popitem(last=False)`.
`popitem` on an empty dictionary raises `KeyError`, which happens exactly
when `max_size = 0`; that is the `none` result. -/
def evictLoop (maxSize : Nat) : List (String × CacheEntry α) →
    Option (List (String × CacheEntry α))
  | [] => if 0 ≥ maxSize then none else some []
  | p :: rest =>
    if (p :: rest).length ≥ maxSize then evictLoop maxSize rest
    else some (p :: rest)

/-- The TTL actually stored by `MemoryCache.set`: the code computes
`ttl or self.default_ttl`, and `0` is falsy in Python, so a `ttl` argument
of `0` is replaced by the default as well. -/
def effectiveTtl (c : MemoryCache α) (ttl : Option Nat) : Nat :=
  match ttl with
  | none => c.default_ttl
  | some t => if t = 0 then c.default_ttl else t

/-- `MemoryCache.set`: evict oldest entries while at capacity, then bind
`key` to a fresh entry created at `now`.  `none` is the `KeyError` raised
when `max_size = 0` forces `popitem` on an empty dictionary. -/
def MemoryCache.set (c : MemoryCache α) (key : String) (value : α)
    (ttl : Option Nat) (now : Nat) : Option (MemoryCache α) :=
  match evictLoop c.max_size c.entries with
  | none => none
  | some evicted =>
    let entry : CacheEntry α :=
      { value := value, created_at := now, ttl := effectiveTtl c ttl }
    some { c with entries := assocSet key entry evicted }

/-- `MemoryCache.delete` from `cache_service.py`. -/
def MemoryCache.delete (c : MemoryCache α) (key : String) :
    Bool × MemoryCache α :=
  if containsKey key c.entries then
    (true, { c with entries := removeKey key c.entries })
  else
    (false, c)

theorem evictLoop_pos (maxSize : Nat) (hpos : 0 < maxSize)
    (l : List (String × CacheEntry α)) :
    evictLoop maxSize l = some (l.drop (l.length + 1 - maxSize)) := by
  induction l with
  | nil =>
    simp [evictLoop, Nat.not_le.mpr hpos, Nat.lt_iff_add_one_le.mp hpos]
  | cons p rest ih =>
    by_cases h : (p :: rest).length ≥ maxSize
    · rw [evictLoop, if_pos h, ih]
      congr 1
      simp only [List.length_cons]
      have h1 : rest.length + 1 + 1 - maxSize = (rest.length + 1 - maxSize) + 1 :=
        Nat.succ_sub h
      rw [h1, List.drop_succ_cons]
    · rw [evictLoop, if_neg h]
      have : (p :: rest).length + 1 - maxSize = 0 :=
        Nat.sub_eq_zero_of_le (Nat.not_le.mp h)
      rw [this, List.drop_zero]

theorem containsKey_iff_mem [DecidableEq κ] {β : Type v} (k : κ) (l : List (κ × β)) :
    containsKey k l = true ↔ k ∈ l.map Prod.fst := by
  induction l with
  | nil => simp [containsKey, assocLookup]
  | cons p rest ih =>
    by_cases h : p.1 = k
    · simp [containsKey, assocLookup, h]
    · simp only [containsKey, assocLookup, if_neg h, List.map_cons, List.mem_cons]
      rw [ih.symm]
      constructor
      · exact fun hc => Or.inr hc
      · rintro (hc | hc)
        · exact absurd hc.symm h
        · exact hc

theorem length_assocSet_of_contains [DecidableEq κ] {β : Type v} (k : κ) (v : β)
    (l : List (κ × β)) (h : containsKey k l = true) :
    (assocSet k v l).length = l.length := by
  rw [assocSet, if_pos h, updateAt, List.length_map]

theorem assocLookup_append_single_ne [DecidableEq κ] {β : Type v} (k j : κ) (v : β)
    (l : List (κ × β)) (hne : j ≠ k) :
    assocLookup j (l ++ [(k, v)]) = assocLookup j l := by
  induction l with
  | nil =>
    simp only [List.nil_append, assocLookup, if_neg (Ne.symm hne)]
  | cons p rest ih =>
    by_cases hp : p.1 = j
    · simp [assocLookup, hp]
    · simp only [List.cons_append, assocLookup, if_neg hp]
      exact ih

theorem containsKey_assocSet_ne [DecidableEq κ] {β : Type v} (k j : κ) (v : β)
    (l : List (κ × β)) (hne : j ≠ k) :
    containsKey j (assocSet k v l) = containsKey j l := by
  rw [assocSet]
  by_cases h : containsKey k l = true
  · rw [if_pos h]
    unfold containsKey
    rw [assocLookup_updateAt_ne k j _ l hne]
  · rw [if_neg h]
    unfold containsKey
    rw [assocLookup_append_single_ne k j v l hne]

theorem containsKey_assocSet_self [DecidableEq κ] {β : Type v} (k : κ) (v : β)
    (l : List (κ × β)) : containsKey k (assocSet k v l) = true := by
  unfold containsKey
  rw [assocLookup_assocSet]
  rfl

/-- The entry a call `set key value ttl` creates at instant `now`. -/
def freshEntry (c : MemoryCache α) (v : α) (tl : Option Nat) (now : Nat) :
    CacheEntry α :=
  { value := v, created_at := now, ttl := effectiveTtl c tl, hits := 0 }

/-- The cache produced by a non-raising `set` once eviction left `l`. -/
def setResult (c : MemoryCache α) (k : String) (v : α) (tl : Option Nat)
    (now : Nat) (l : List (String × CacheEntry α)) : MemoryCache α :=
  { c with entries := assocSet k (freshEntry c v tl now) l }

/-- `MemoryCache.set` on a cache holding exactly `max_size` entries first
evicts the oldest (least-recently-used) entry and then writes the new
binding: shared shape lemma for the LRU claims. -/
theorem set_at_capacity (c : MemoryCache α) (k : String) (v : α)
    (tl : Option Nat) (now : Nat) (hms : 0 < c.max_size)
    (hlen : c.entries.length = c.max_size) :
    c.set k v tl now = some (setResult c k v tl now c.entries.tail) := by
  rw [MemoryCache.set, evictLoop_pos c.max_size hms c.entries, hlen]
  rw [Nat.add_sub_cancel_left c.max_size 1, List.drop_one]
  rfl

/-- The entry stored by a successful `MemoryCache.set`. -/
theorem lookup_after_set (c c1 : MemoryCache α) (k : String) (v : α)
    (tl : Option Nat) (now : Nat) (hset : c.set k v tl now = some c1) :
    assocLookup k c1.entries = some (freshEntry c v tl now) := by
  rw [MemoryCache.set] at hset
  cases hev : evictLoop c.max_size c.entries with
  | none => rw [hev] at hset; exact absurd hset (by simp)
  | some evicted =>
    rw [hev] at hset
    simp only [Option.some_inj] at hset
    rw [← hset]
    exact assocLookup_assocSet k _ evicted

/-- Hit/miss behaviour of `get` on a freshly set key. -/
theorem get_after_set (c c1 : MemoryCache α) (key : String) (v : α)
    (tl now later : Nat) (htl : 1 ≤ tl)
    (hset : c.set key v (some tl) now = some c1) :
    (later - now ≤ tl → (c1.get key later).1 = some v) ∧
    (tl < later - now →
      (c1.get key later).1 = none ∧
      containsKey key ((c1.get key later).2).entries = false) := by
  have httl : effectiveTtl c (some tl) = tl := by
    have : tl ≠ 0 := Nat.one_le_iff_ne_zero.mp htl
    simp [effectiveTtl, this]
  have hlook := lookup_after_set c c1 key v (some tl) now hset
  rw [freshEntry, httl] at hlook
  constructor
  · intro hle
    rw [MemoryCache.get, hlook]
    simp [Nat.not_lt.mpr hle]
  · intro hgt
    rw [MemoryCache.get, hlook]
    simp only [gt_iff_lt, if_pos hgt]
    refine ⟨by trivial, ?_⟩
    show containsKey key (removeKey key c1.entries) = false
    unfold containsKey
    rw [assocLookup_removeKey]
    rfl

/-- C8 (amended): cache TTL round-trip for a positive `ttl` argument.
After `set key v ttl` at instant `now` on a cache with positive capacity,
a `get key` while `later - now ≤ ttl` returns `v`, and a `get key` once
`later - now > ttl` behaves as a miss and removes the entry from the
store, regardless of the entry's hit count.  (A `ttl` argument of `0` is
falsy in Python and is replaced by `default_ttl`, so the claim as stated
fails at `ttl = 0`; see the counterexample.) -/
theorem C8_ttl_roundtrip (c : MemoryCache α) (key : String) (v : α)
    (tl now later : Nat) (hms : 0 < c.max_size) (htl : 1 ≤ tl) :
    ∃ c1, c.set key v (some tl) now = some c1 ∧
      (later - now ≤ tl → (c1.get key later).1 = some v) ∧
      (tl < later - now →
        (c1.get key later).1 = none ∧
        containsKey key ((c1.get key later).2).entries = false) := by
  have hev := evictLoop_pos c.max_size hms c.entries
  have hset : c.set key v (some tl) now =
      some (setResult c key v (some tl) now
        (c.entries.drop (c.entries.length + 1 - c.max_size))) := by
    rw [MemoryCache.set, hev]
    rfl
  exact ⟨_, hset, get_after_set c _ key v tl now later htl hset⟩

/-- C8 counterexample: `put("k", "v", ttl := 0)` then `get("k")` at a
later instant with `later - created_at > 0 = ttl` still returns `"v"`
instead of missing, because `ttl or self.default_ttl` treats `0` as
falsy and stores the default TTL of 3600. -/
theorem C8_counterexample_ttl_zero :
    ∃ c1, (MemoryCache.mk ([] : List (String × CacheEntry String)) 100 3600).set
        "k" "v" (some 0) 0 = some c1 ∧
      0 < 1 - (0 : Nat) ∧ (c1.get "k" 1).1 = some "v" := by
  refine ⟨MemoryCache.mk [("k", ⟨"v", 0, 3600, 0⟩)] 100 3600, ?_, by decide, ?_⟩
  · rfl
  · rfl

/-- C8 witness: capacity 100, `put("k","v",5)` at time 0, `get` at time 3
returns `"v"`. -/
theorem C8_ttl_roundtrip_witness :
    ∃ c1, (MemoryCache.mk ([] : List (String × CacheEntry String)) 100 3600).set
        "k" "v" (some 5) 0 = some c1 ∧ (c1.get "k" 3).1 = some "v" := by
  obtain ⟨c1, hset, hhit, _⟩ :=
    C8_ttl_roundtrip (MemoryCache.mk [] 100 3600) "k" "v" 5 0 3
      (by decide) (by decide)
  exact ⟨c1, hset, hhit (by decide)⟩

/-- C9: strict LRU eviction by access order.  First conjunct: a `set` on a
cache holding exactly `max_size` entries evicts the head of the order
(the least-recently-used entry, since `get` moves entries to the end)
before inserting.  Second conjunct: with capacity 2, the sequence
`put a; put b; get a; put c` leaves exactly the keys `a` and `c` and
evicts `b`. -/
theorem C9_lru_eviction :
    (∀ (c : MemoryCache α) (k : String) (v : α) (tl : Option Nat) (now : Nat),
        0 < c.max_size → c.entries.length = c.max_size →
        c.set k v tl now = some (setResult c k v tl now c.entries.tail)) ∧
    (((MemoryCache.mk ([] : List (String × CacheEntry String)) 2 3600).set
          "a" "va" none 0).bind (fun c1 =>
        (c1.set "b" "vb" none 1).bind (fun c2 =>
          ((c2.get "a" 2).2).set "c" "vc" none 3))).map
        (fun c => c.entries.map Prod.fst) = some ["a", "c"] := by
  exact ⟨fun c k v tl now hms hlen => set_at_capacity c k v tl now hms hlen, rfl⟩

/-- The cache state just before the final `put c` of the C9 scenario:
order is `b` (oldest) then `a` (just refreshed by `get a`). -/
def cacheMid : MemoryCache String :=
  MemoryCache.mk [("b", ⟨"vb", 1, 3600, 0⟩), ("a", ⟨"va", 0, 3600, 1⟩)] 2 3600

/-- C9 witness: the general eviction law applied to the concrete state of
the capacity-2 scenario. -/
theorem C9_lru_eviction_witness :
    ∃ c1, cacheMid.set "c" "vc" none 3 = some c1 ∧
      c1.entries.map Prod.fst = ["a", "c"] := by
  refine ⟨_, C9_lru_eviction.1 cacheMid "c" "vc" none 3 (by decide) (by decide), ?_⟩
  rfl

/-- C10: a `set` of a key `k` that is already present while the cache
holds exactly `max_size` entries runs the eviction check before the key's
presence is considered, so the oldest entry `hk` is evicted even though no
new key is added; when `hk ≠ k` (and keys are distinct, as in a Python
dictionary) an unrelated entry is lost and the store shrinks to
`max_size - 1` entries after the overwrite. -/
theorem C10_overwrite_evicts (c : MemoryCache α) (hk : String)
    (he : CacheEntry α) (rest : List (String × CacheEntry α)) (k : String)
    (v : α) (tl : Option Nat) (now : Nat)
    (hent : c.entries = (hk, he) :: rest) (hms : 0 < c.max_size)
    (hlen : c.entries.length = c.max_size)
    (hmem : containsKey k rest = true) (hne : hk ≠ k) :
    ∃ c1, c.set k v tl now = some c1 ∧
      c1.entries.length = c.max_size - 1 ∧
      containsKey k c1.entries = true ∧
      ((c.entries.map Prod.fst).Nodup → containsKey hk c1.entries = false) := by
  refine ⟨_, set_at_capacity c k v tl now hms hlen, ?_, ?_, ?_⟩
  · show (assocSet k (freshEntry c v tl now) c.entries.tail).length = c.max_size - 1
    rw [hent, List.tail_cons,
      length_assocSet_of_contains k (freshEntry c v tl now) rest hmem]
    rw [hent] at hlen
    simp only [List.length_cons] at hlen
    omega
  · show containsKey k (assocSet k (freshEntry c v tl now) c.entries.tail) = true
    exact containsKey_assocSet_self k (freshEntry c v tl now) c.entries.tail
  · intro hnd
    show containsKey hk (assocSet k (freshEntry c v tl now) c.entries.tail) = false
    rw [hent, List.tail_cons,
      containsKey_assocSet_ne k hk (freshEntry c v tl now) rest hne]
    rw [hent] at hnd
    simp only [List.map_cons, List.nodup_cons] at hnd
    cases hck : containsKey hk rest with
    | false => rfl
    | true => exact absurd ((containsKey_iff_mem hk rest).mp hck) hnd.1

/-- The full cache of the C10 witness: keys `x` (oldest) and `y`,
capacity 2. -/
def cacheFull : MemoryCache String :=
  MemoryCache.mk [("x", ⟨"vx", 0, 3600, 0⟩), ("y", ⟨"vy", 0, 3600, 0⟩)] 2 3600

/-- C10 witness: overwriting `y` in a full capacity-2 cache evicts the
unrelated oldest key `x` and leaves a single entry. -/
theorem C10_overwrite_evicts_witness :
    ∃ c1, cacheFull.set "y" "vy2" none 5 = some c1 ∧
      c1.entries.length = 2 - 1 ∧
      containsKey "y" c1.entries = true ∧
      containsKey "x" c1.entries = false := by
  obtain ⟨c1, hset, hlen, hky, hkx⟩ :=
    C10_overwrite_evicts cacheFull "x" ⟨"vx", 0, 3600, 0⟩
      [("y", ⟨"vy", 0, 3600, 0⟩)] "y" "vy2" none 5
      rfl (by decide) (by decide) (by decide) (by decide)
  exact ⟨c1, hset, hlen, hky, hkx (by decide)⟩

/-! ## `BackgroundTaskManager` (backend/services/background_tasks.py) -/

/-- `TaskStatus` from `background_tasks.py`. -/
inductive TaskStatus where
  | pending
  | processing
  | completed
  | failed
  deriving DecidableEq, Repr

/-- `BackgroundTask`: the mutable record tracked per task.  `result` is an
abstract `Nat` standing for the Python result dictionary; `progress` is an
`Int`, covering the negative and above-100 inputs the clamp receives;
`metadata` is omitted as no claim touches it. -/
structure BackgroundTask where
  status : TaskStatus
  created_at : Nat
  completed_at : Option Nat := none
  result : Option Nat := none
  error : Option String := none
  progress : Int := 0
  deriving DecidableEq, Repr

/-- Where the scheduled `_execute` coroutine of a task stands:
`waitingSem` before the `async with self._semaphore` acquires, `admitted`
between acquisition and the `status = PROCESSING` write, `runningExec`
while the executor runs, `finished` after `_execute` returned and released
the semaphore. -/
inductive ExecPhase where
  | waitingSem
  | admitted
  | runningExec
  | finished
  deriving DecidableEq, Repr

/-- A task record together with the phase of its `_execute` coroutine. -/
structure TaskSlot where
  task : BackgroundTask
  phase : ExecPhase
  deriving DecidableEq, Repr

/-- `BackgroundTaskManager`: the `_tasks` dictionary (task ids abstracted
to `Nat`), the number of free semaphore permits, and the configured
concurrency bound. -/
structure BackgroundTaskManager where
  tasks : List (Nat × TaskSlot)
  semAvail : Nat
  maxConcurrent : Nat
  deriving DecidableEq, Repr

/-- The manager `BackgroundTaskManager(max_concurrent)` starts with. -/
def initManager (maxConcurrent : Nat) : BackgroundTaskManager :=
  { tasks := [], semAvail := maxConcurrent, maxConcurrent := maxConcurrent }

/-- What running the submitted executor does: return a result or raise an
exception carrying the message `str(e)`. -/
inductive ExecOutcome where
  | ok (result : Nat)
  | exc (msg : String)
  deriving DecidableEq, Repr

/-- The record `submit` creates: a Pending task whose `_execute` is
scheduled but not yet admitted. -/
def newTask (now : Nat) : TaskSlot :=
  { task := { status := TaskStatus.pending, created_at := now },
    phase := ExecPhase.waitingSem }

/-- `submit`: register a fresh Pending task and schedule `_execute`
(phase `waitingSem`).  A `uuid4` id never collides, so a submit with an
already-used id is a no-op here. -/
def submit (m : BackgroundTaskManager) (id now : Nat) : BackgroundTaskManager :=
  if containsKey id m.tasks then m
  else { m with tasks := m.tasks ++ [(id, newTask now)] }

/-- The `try/except` body of `_execute` once the executor has finished:
on success store the result, mark Completed, set progress to 100; any
exception is caught, its message stored verbatim in `error`, and the task
marked Failed.  `_execute` never re-raises. -/
def recordOutcome (t : BackgroundTask) (o : ExecOutcome) (now : Nat) : BackgroundTask :=
  match o with
  | ExecOutcome.ok r =>
    { t with status := TaskStatus.completed, result := some r,
             completed_at := some now, progress := 100 }
  | ExecOutcome.exc msg =>
    { t with status := TaskStatus.failed, error := some msg,
             completed_at := some now }

/-- Phase change performed by acquiring the semaphore. -/
def admitSlot (s : TaskSlot) : TaskSlot :=
  { s with phase := ExecPhase.admitted }

/-- The unconditional Processing write of `_execute` after admission. -/
def processSlot (s : TaskSlot) : TaskSlot :=
  { s with phase := ExecPhase.runningExec,
           task := { s.task with status := TaskStatus.processing } }

/-- Recording the executor's outcome at the end of `_execute`. -/
def finishSlot (o : ExecOutcome) (now : Nat) (s : TaskSlot) : TaskSlot :=
  { s with phase := ExecPhase.finished, task := recordOutcome s.task o now }

/-- The mutation performed by a successful `cancel_task`. -/
def cancelSlot (now : Nat) (s : TaskSlot) : TaskSlot :=
  { s with task := { s.task with status := TaskStatus.failed,
                                 error := some "Cancelled by user",
                                 completed_at := some now } }

/-- The mutation performed by a successful `update_progress`. -/
def progressSlot (progress : Int) (s : TaskSlot) : TaskSlot :=
  { s with task := { s.task with progress := min (max progress 0) 100 } }

/-- The semaphore acquisition at the head of `_execute`: an awaiting
coroutine proceeds only when a permit is free. -/
def acquireSem (m : BackgroundTaskManager) (id : Nat) : BackgroundTaskManager :=
  match assocLookup id m.tasks with
  | none => m
  | some slot =>
    if slot.phase = ExecPhase.waitingSem ∧ 0 < m.semAvail then
      { m with semAvail := m.semAvail - 1, tasks := updateAt id admitSlot m.tasks }
    else m

/-- The unconditional `task.status = TaskStatus.PROCESSING` write right
after admission in `_execute`; the current status is not inspected. -/
def beginProcessing (m : BackgroundTaskManager) (id : Nat) : BackgroundTaskManager :=
  match assocLookup id m.tasks with
  | none => m
  | some slot =>
    if slot.phase = ExecPhase.admitted then
      { m with tasks := updateAt id processSlot m.tasks }
    else m

/-- End of `_execute`: record the executor's outcome and release the
semaphore permit on leaving the `async with` block. -/
def finishExec (m : BackgroundTaskManager) (id : Nat) (o : ExecOutcome)
    (now : Nat) : BackgroundTaskManager :=
  match assocLookup id m.tasks with
  | none => m
  | some slot =>
    if slot.phase = ExecPhase.runningExec then
      { m with semAvail := m.semAvail + 1, tasks := updateAt id (finishSlot o now) m.tasks }
    else m

/-- `cancel_task` from `background_tasks.py`: only a Pending task is
cancelled; it is marked Failed with the fixed error text.  The scheduled
`_execute` coroutine is not touched. -/
def cancel_task (m : BackgroundTaskManager) (id now : Nat) :
    Bool × BackgroundTaskManager :=
  match assocLookup id m.tasks with
  | none => (false, m)
  | some slot =>
    if slot.task.status ≠ TaskStatus.pending then (false, m)
    else
      (true, { m with tasks := updateAt id (cancelSlot now) m.tasks })

/-- `update_progress` from `background_tasks.py`: clamp into `[0, 100]`
and store; `False` without any mutation when the task is unknown. -/
def update_progress (m : BackgroundTaskManager) (id : Nat) (progress : Int) :
    Bool × BackgroundTaskManager :=
  match assocLookup id m.tasks with
  | none => (false, m)
  | some _ =>
    (true, { m with tasks := updateAt id (progressSlot progress) m.tasks })

/-- One schedulable event of the orchestrator. -/
inductive TaskAction where
  | submit (id now : Nat)
  | acquire (id : Nat)
  | beginProc (id : Nat)
  | finish (id : Nat) (o : ExecOutcome) (now : Nat)
  | cancel (id now : Nat)
  | updateProg (id : Nat) (progress : Int)
  deriving DecidableEq, Repr

/-- Apply one event; guards that do not hold make the event a no-op, so a
list of actions ranges over every interleaving the scheduler can produce. -/
def stepTask (m : BackgroundTaskManager) : TaskAction → BackgroundTaskManager
  | TaskAction.submit id now => submit m id now
  | TaskAction.acquire id => acquireSem m id
  | TaskAction.beginProc id => beginProcessing m id
  | TaskAction.finish id o now => finishExec m id o now
  | TaskAction.cancel id now => (cancel_task m id now).2
  | TaskAction.updateProg id p => (update_progress m id p).2

/-- Run a schedule from a manager state. -/
def runTasks (m : BackgroundTaskManager) (acts : List TaskAction) :
    BackgroundTaskManager :=
  acts.foldl stepTask m

/-- Whether a task currently holds status Processing. -/
def isProcessing (s : TaskSlot) : Bool :=
  s.task.status = TaskStatus.processing

/-- Whether a task's `_execute` coroutine holds a semaphore permit:
between acquisition and the release at the end of the `async with`. -/
def isHolder (s : TaskSlot) : Bool :=
  s.phase = ExecPhase.admitted ∨ s.phase = ExecPhase.runningExec

/-- Number of tasks currently holding status Processing. -/
def countProcessing (m : BackgroundTaskManager) : Nat :=
  (m.tasks.filter fun p => isProcessing p.2).length

/-- Number of `_execute` coroutines currently holding a semaphore permit. -/
def countHolders (m : BackgroundTaskManager) : Nat :=
  (m.tasks.filter fun p => isHolder p.2).length

/-- Status of a task as `get_status` reports it (`none` when unknown). -/
def statusOf (m : BackgroundTaskManager) (id : Nat) : Option TaskStatus :=
  (assocLookup id m.tasks).map fun s => s.task.status

/-- Phase of the scheduled `_execute` coroutine of a task. -/
def phaseOf (m : BackgroundTaskManager) (id : Nat) : Option ExecPhase :=
  (assocLookup id m.tasks).map fun s => s.phase

/-- A task's error text, when the task is known. -/
def errorOf (m : BackgroundTaskManager) (id : Nat) : Option (Option String) :=
  (assocLookup id m.tasks).map fun s => s.task.error

/-- A task's progress, when the task is known. -/
def progressOf (m : BackgroundTaskManager) (id : Nat) : Option Int :=
  (assocLookup id m.tasks).map fun s => s.task.progress

theorem updateAt_map_fst [DecidableEq κ] (k : κ) (f : β → β) (l : List (κ × β)) :
    (updateAt k f l).map Prod.fst = l.map Prod.fst := by
  induction l with
  | nil => rfl
  | cons p rest ih =>
    by_cases h : p.1 = k <;> simp [updateAt, h] at ih ⊢ <;> exact ih

theorem assocLookup_eq_of_mem_nodup [DecidableEq κ] {l : List (κ × β)}
    {a : κ × β} (hnd : (l.map Prod.fst).Nodup) (ha : a ∈ l) :
    assocLookup a.1 l = some a.2 := by
  induction l with
  | nil => exact absurd ha (List.not_mem_nil a)
  | cons p rest ih =>
    simp only [List.map_cons, List.nodup_cons] at hnd
    rcases List.mem_cons.mp ha with h | h
    · subst h
      simp [assocLookup]
    · have hne : p.1 ≠ a.1 := by
        intro hc
        exact hnd.1 (hc ▸ List.mem_map_of_mem Prod.fst h)
      simp only [assocLookup, if_neg hne]
      exact ih hnd.2 h

/-- `updateAt` is the identity when the key is absent. -/
theorem updateAt_not_mem [DecidableEq κ] (k : κ) (f : β → β)
    (l : List (κ × β)) (hk : k ∉ l.map Prod.fst) : updateAt k f l = l := by
  induction l with
  | nil => rfl
  | cons p rest ih =>
    simp only [List.map_cons, List.mem_cons, not_or] at hk
    have hpk : ¬ p.1 = k := fun hc => hk.1 hc.symm
    have htail := ih hk.2
    simp only [updateAt, List.map_cons, if_neg hpk] at htail ⊢
    rw [htail]

/-- Counting a value predicate across an in-place update of the (unique)
binding of `k`. -/
theorem filter_length_updateAt [DecidableEq κ] (k : κ) (f : β → β)
    (l : List (κ × β)) (q : β → Bool) (b : β)
    (hnd : (l.map Prod.fst).Nodup) (hb : assocLookup k l = some b) :
    ((updateAt k f l).filter fun p => q p.2).length + (if q b then 1 else 0) =
      (l.filter fun p => q p.2).length + (if q (f b) then 1 else 0) := by
  induction l with
  | nil => exact absurd hb (by simp [assocLookup])
  | cons p rest ih =>
    simp only [List.map_cons, List.nodup_cons] at hnd
    by_cases h : p.1 = k
    · have hb2 : b = p.2 := by
        simp only [assocLookup, if_pos h] at hb
        exact (Option.some_inj.mp hb).symm
      subst hb2
      have hk : k ∉ rest.map Prod.fst := h ▸ hnd.1
      have hrest := updateAt_not_mem k f rest hk
      simp only [updateAt, List.map_cons, if_pos h] at hrest ⊢
      rw [hrest, List.filter_cons, List.filter_cons]
      by_cases hq : q p.2 <;> by_cases hqf : q (f p.2) <;>
        simp [hq, hqf] <;> omega
    · simp only [assocLookup, if_neg h] at hb
      have hrec := ih hnd.2 hb
      simp only [updateAt, List.map_cons, if_neg h] at hrec ⊢
      rw [List.filter_cons, List.filter_cons]
      by_cases hq : q p.2 <;> simp [hq] <;> omega

/-- The inductive invariant of the orchestrator: distinct task ids, the
semaphore accounting (free permits plus held permits equal the bound),
and the fact that a Processing task always sits inside the guarded
section of `_execute`. -/
def TaskInv (m : BackgroundTaskManager) : Prop :=
  (m.tasks.map Prod.fst).Nodup ∧
  m.semAvail + countHolders m = m.maxConcurrent ∧
  ∀ p ∈ m.tasks, isProcessing p.2 = true → p.2.phase = ExecPhase.runningExec

theorem taskInv_init (maxConcurrent : Nat) : TaskInv (initManager maxConcurrent) := by
  refine ⟨List.nodup_nil, ?_, ?_⟩
  · simp [initManager, countHolders]
  · intro p hp
    exact absurd hp (List.not_mem_nil p)

theorem forall_mem_updateAt [DecidableEq κ] {P : κ × β → Prop}
    (l : List (κ × β)) (k : κ) (f : β → β) (h : ∀ p ∈ l, P p)
    (hf : ∀ p ∈ l, p.1 = k → P (p.1, f p.2)) :
    ∀ p ∈ updateAt k f l, P p := by
  intro p hp
  obtain ⟨a, ha, hg⟩ := List.mem_map.mp hp
  by_cases hk : a.1 = k
  · rw [if_pos hk] at hg
    exact hg ▸ hf a ha hk
  · rw [if_neg hk] at hg
    exact hg ▸ h a ha

theorem mem_key_eq_lookup [DecidableEq κ] {l : List (κ × β)} {a : κ × β}
    {k : κ} {b : β} (hnd : (l.map Prod.fst).Nodup) (ha : a ∈ l)
    (hak : a.1 = k) (hb : assocLookup k l = some b) : a.2 = b := by
  have := assocLookup_eq_of_mem_nodup hnd ha
  rw [hak, hb] at this
  exact Option.some_inj.mp this.symm

theorem filter_length_mono {γ : Type u} (l : List γ) (p q : γ → Bool)
    (h : ∀ a ∈ l, p a = true → q a = true) :
    (l.filter p).length ≤ (l.filter q).length := by
  induction l with
  | nil => exact Nat.le_refl 0
  | cons x rest ih =>
    have hrest := ih (fun a ha hp => h a (List.mem_cons_of_mem x ha) hp)
    rw [List.filter_cons, List.filter_cons]
    by_cases hp : p x = true
    · rw [if_pos hp, if_pos (h x (List.mem_cons_self x rest) hp)]
      simpa using hrest
    · rw [if_neg hp]
      by_cases hq : q x = true
      · rw [if_pos hq]
        exact Nat.le_succ_of_le hrest
      · rw [if_neg hq]
        exact hrest


theorem filter_length_updateAt_congr [DecidableEq κ] (k : κ) (f : β → β)
    (l : List (κ × β)) (q : β → Bool) (hq : ∀ b, q (f b) = q b) :
    ((updateAt k f l).filter fun p => q p.2).length =
      (l.filter fun p => q p.2).length := by
  induction l with
  | nil => rfl
  | cons p rest ih =>
    simp only [updateAt, List.map_cons] at ih ⊢
    by_cases h : p.1 = k
    · rw [if_pos h, List.filter_cons, List.filter_cons]
      simp only [hq p.2]
      by_cases hqp : q p.2 = true
      · rw [if_pos hqp, if_pos hqp]
        simpa using ih
      · rw [if_neg hqp, if_neg hqp]
        exact ih
    · rw [if_neg h, List.filter_cons, List.filter_cons]
      by_cases hqp : q p.2 = true
      · rw [if_pos hqp, if_pos hqp]
        simpa using ih
      · rw [if_neg hqp, if_neg hqp]
        exact ih


theorem taskInv_step (m : BackgroundTaskManager) (a : TaskAction)
    (hinv : TaskInv m) : TaskInv (stepTask m a) := by
  obtain ⟨hnd, hsem, hproc⟩ := hinv
  have hsemF : m.semAvail +
      (List.filter (fun p => isHolder p.2) m.tasks).length = m.maxConcurrent := hsem
  cases a with
  | submit id now =>
    show TaskInv (submit m id now)
    rw [submit]
    split
    · exact ⟨hnd, hsem, hproc⟩
    · next hc =>
      have hid : id ∉ m.tasks.map Prod.fst :=
        fun hm => hc ((containsKey_iff_mem id m.tasks).mpr hm)
      refine ⟨?_, ?_, ?_⟩
      · show (List.map Prod.fst (m.tasks ++ [(id, newTask now)])).Nodup
        rw [List.map_append]
        refine List.Nodup.append hnd (List.nodup_singleton id) ?_
        intro x hx hxs
        simp only [List.map_cons, List.map_nil, List.mem_singleton] at hxs
        exact hid (hxs ▸ hx)
      · show m.semAvail +
          (List.filter (fun p => isHolder p.2) (m.tasks ++ [(id, newTask now)])).length =
            m.maxConcurrent
        rw [List.filter_append]
        have hz : List.filter (fun p => isHolder p.2) [((id : Nat), newTask now)] = [] := by
          simp [isHolder, newTask]
        rw [hz, List.append_nil]
        exact hsemF
      · intro p hp hip
        rcases List.mem_append.mp hp with h | h
        · exact hproc p h hip
        · simp only [List.mem_singleton] at h
          subst h
          simp [isProcessing, newTask] at hip
  | acquire id =>
    show TaskInv (acquireSem m id)
    rw [acquireSem]
    split
    · exact ⟨hnd, hsem, hproc⟩
    · next slot hlk =>
      split
      · next hg =>
        obtain ⟨hph, hpos⟩ := hg
        have hcount := filter_length_updateAt id admitSlot m.tasks isHolder slot hnd hlk
        rw [show isHolder slot = false by simp [isHolder, hph]] at hcount
        rw [show isHolder (admitSlot slot) = true by simp [isHolder, admitSlot]] at hcount
        simp at hcount
        refine ⟨?_, ?_, ?_⟩
        · show (List.map Prod.fst (updateAt id admitSlot m.tasks)).Nodup
          rw [updateAt_map_fst]
          exact hnd
        · show m.semAvail - 1 +
            (List.filter (fun p => isHolder p.2) (updateAt id admitSlot m.tasks)).length =
              m.maxConcurrent
          omega
        · refine forall_mem_updateAt m.tasks id admitSlot hproc ?_
          intro p hp hpk hip
          have hps : p.2 = slot := mem_key_eq_lookup hnd hp hpk hlk
          have his : isProcessing slot = true := by
            simpa [isProcessing, admitSlot, hps] using hip
          have hrun := hproc p hp (by rw [hps]; exact his)
          rw [hps, hph] at hrun
          exact absurd hrun (by decide)
      · next hg => exact ⟨hnd, hsem, hproc⟩
  | beginProc id =>
    show TaskInv (beginProcessing m id)
    rw [beginProcessing]
    split
    · exact ⟨hnd, hsem, hproc⟩
    · next slot hlk =>
      split
      · next hg =>
        have hcount := filter_length_updateAt id processSlot m.tasks isHolder slot hnd hlk
        rw [show isHolder slot = true by simp [isHolder, hg]] at hcount
        rw [show isHolder (processSlot slot) = true by simp [isHolder, processSlot]] at hcount
        simp at hcount
        refine ⟨?_, ?_, ?_⟩
        · show (List.map Prod.fst (updateAt id processSlot m.tasks)).Nodup
          rw [updateAt_map_fst]
          exact hnd
        · show m.semAvail +
            (List.filter (fun p => isHolder p.2) (updateAt id processSlot m.tasks)).length =
              m.maxConcurrent
          omega
        · refine forall_mem_updateAt m.tasks id processSlot hproc ?_
          intro p hp hpk hip
          rfl
      · next hg => exact ⟨hnd, hsem, hproc⟩
  | finish id o now =>
    show TaskInv (finishExec m id o now)
    rw [finishExec]
    split
    · exact ⟨hnd, hsem, hproc⟩
    · next slot hlk =>
      split
      · next hg =>
        have hcount := filter_length_updateAt id (finishSlot o now) m.tasks isHolder slot hnd hlk
        rw [show isHolder slot = true by simp [isHolder, hg]] at hcount
        rw [show isHolder (finishSlot o now slot) = false by
          simp [isHolder, finishSlot]] at hcount
        simp at hcount
        refine ⟨?_, ?_, ?_⟩
        · show (List.map Prod.fst (updateAt id (finishSlot o now) m.tasks)).Nodup
          rw [updateAt_map_fst]
          exact hnd
        · show m.semAvail + 1 +
            (List.filter (fun p => isHolder p.2) (updateAt id (finishSlot o now) m.tasks)).length =
              m.maxConcurrent
          omega
        · refine forall_mem_updateAt m.tasks id (finishSlot o now) hproc ?_
          intro p hp hpk hip
          cases o with
          | ok r => simp [isProcessing, finishSlot, recordOutcome] at hip
          | exc msg => simp [isProcessing, finishSlot, recordOutcome] at hip
      · next hg => exact ⟨hnd, hsem, hproc⟩
  | cancel id now =>
    show TaskInv (cancel_task m id now).2
    rw [cancel_task]
    split
    · exact ⟨hnd, hsem, hproc⟩
    · next slot hlk =>
      split
      · next hg => exact ⟨hnd, hsem, hproc⟩
      · next hg =>
        have hcount := filter_length_updateAt_congr id (cancelSlot now) m.tasks isHolder
          (fun b => rfl)
        refine ⟨?_, ?_, ?_⟩
        · show (List.map Prod.fst (updateAt id (cancelSlot now) m.tasks)).Nodup
          rw [updateAt_map_fst]
          exact hnd
        · show m.semAvail +
            (List.filter (fun p => isHolder p.2) (updateAt id (cancelSlot now) m.tasks)).length =
              m.maxConcurrent
          omega
        · refine forall_mem_updateAt m.tasks id (cancelSlot now) hproc ?_
          intro p hp hpk hip
          simp [isProcessing, cancelSlot] at hip
  | updateProg id prog =>
    show TaskInv (update_progress m id prog).2
    rw [update_progress]
    split
    · exact ⟨hnd, hsem, hproc⟩
    · next slot hlk =>
      have hcount := filter_length_updateAt_congr id (progressSlot prog) m.tasks isHolder
        (fun b => rfl)
      refine ⟨?_, ?_, ?_⟩
      · show (List.map Prod.fst (updateAt id (progressSlot prog) m.tasks)).Nodup
        rw [updateAt_map_fst]
        exact hnd
      · show m.semAvail +
          (List.filter (fun p => isHolder p.2) (updateAt id (progressSlot prog) m.tasks)).length =
            m.maxConcurrent
        omega
      · refine forall_mem_updateAt m.tasks id (progressSlot prog) hproc ?_
        intro p hp hpk hip
        have hps : isProcessing p.2 = true := by
          simpa [isProcessing, progressSlot] using hip
        exact hproc p hp hps

theorem taskInv_run (m : BackgroundTaskManager) (acts : List TaskAction)
    (h : TaskInv m) : TaskInv (runTasks m acts) := by
  induction acts generalizing m with
  | nil => exact h
  | cons a rest ih => exact ih (stepTask m a) (taskInv_step m a h)

theorem countProcessing_le_holders (m : BackgroundTaskManager)
    (h : ∀ p ∈ m.tasks, isProcessing p.2 = true →
      p.2.phase = ExecPhase.runningExec) :
    countProcessing m ≤ countHolders m := by
  unfold countProcessing countHolders
  refine filter_length_mono m.tasks _ _ ?_
  intro p hp hip
  have hr := h p hp hip
  simp [isHolder, hr]

theorem assocLookup_append_left [DecidableEq κ] {j : κ} {b : β}
    {l1 : List (κ × β)} (l2 : List (κ × β)) (hl : assocLookup j l1 = some b) :
    assocLookup j (l1 ++ l2) = some b := by
  induction l1 with
  | nil => exact absurd hl (by simp [assocLookup])
  | cons p rest ih =>
    by_cases hp : p.1 = j
    · simp only [assocLookup, if_pos hp, List.cons_append] at hl ⊢
      exact hl
    · simp only [assocLookup, if_neg hp, List.cons_append] at hl ⊢
      exact ih hl

theorem assocLookup_append_right [DecidableEq κ] {j : κ}
    {l1 : List (κ × β)} (l2 : List (κ × β)) (hl : assocLookup j l1 = none) :
    assocLookup j (l1 ++ l2) = assocLookup j l2 := by
  induction l1 with
  | nil => rfl
  | cons p rest ih =>
    by_cases hp : p.1 = j
    · simp only [assocLookup, if_pos hp] at hl
      exact Option.noConfusion hl
    · simp only [assocLookup, if_neg hp, List.cons_append] at hl ⊢
      exact ih hl

theorem processing_after_submit (m : BackgroundTaskManager) (id1 now id : Nat)
    (h : statusOf (submit m id1 now) id = some TaskStatus.processing) :
    statusOf m id = some TaskStatus.processing := by
  rw [submit] at h
  split at h
  · exact h
  · show (assocLookup id m.tasks).map (fun s => s.task.status) = _
    cases hl : assocLookup id m.tasks with
    | some b =>
      have := assocLookup_append_left [((id1 : Nat), newTask now)] hl
      unfold statusOf at h
      rw [show ({ m with tasks := m.tasks ++ [(id1, newTask now)] } :
        BackgroundTaskManager).tasks = m.tasks ++ [(id1, newTask now)] from rfl,
        this] at h
      exact h
    | none =>
      have := assocLookup_append_right [((id1 : Nat), newTask now)] hl
      unfold statusOf at h
      rw [show ({ m with tasks := m.tasks ++ [(id1, newTask now)] } :
        BackgroundTaskManager).tasks = m.tasks ++ [(id1, newTask now)] from rfl,
        this] at h
      by_cases hi : id1 = id
      · simp only [assocLookup, if_pos hi] at h
        simp [newTask] at h
      · simp only [assocLookup, if_neg hi] at h
        simp at h

theorem statusOf_acquireSem (m : BackgroundTaskManager) (id1 id : Nat) :
    statusOf (acquireSem m id1) id = statusOf m id := by
  rw [acquireSem]
  split
  · rfl
  · next slot hlk =>
    split
    · next hg =>
      show ((assocLookup id (updateAt id1 admitSlot m.tasks)).map
        fun s => s.task.status) = _
      by_cases hi : id = id1
      · subst hi
        rw [assocLookup_updateAt]
        unfold statusOf
        cases assocLookup id m.tasks <;> rfl
      · rw [assocLookup_updateAt_ne id1 id admitSlot m.tasks hi]
        rfl
    · rfl

theorem statusOf_updateProg (m : BackgroundTaskManager) (id1 id : Nat) (prog : Int) :
    statusOf (update_progress m id1 prog).2 id = statusOf m id := by
  rw [update_progress]
  split
  · rfl
  · next slot hlk =>
    show ((assocLookup id (updateAt id1 (progressSlot prog) m.tasks)).map
      fun s => s.task.status) = _
    by_cases hi : id = id1
    · subst hi
      rw [assocLookup_updateAt]
      unfold statusOf
      cases assocLookup id m.tasks <;> rfl
    · rw [assocLookup_updateAt_ne id1 id (progressSlot prog) m.tasks hi]
      rfl

theorem processing_after_finish (m : BackgroundTaskManager) (id1 : Nat)
    (o : ExecOutcome) (now id : Nat)
    (h : statusOf (finishExec m id1 o now) id = some TaskStatus.processing) :
    statusOf m id = some TaskStatus.processing := by
  rw [finishExec] at h
  split at h
  · exact h
  · split at h
    · next slot hlk hg =>
      revert h
      show ((assocLookup id (updateAt id1 (finishSlot o now) m.tasks)).map
        fun s => s.task.status) = _ → _
      by_cases hi : id = id1
      · subst hi
        rw [assocLookup_updateAt, hlk]
        intro h
        cases o with
        | ok r => simp [finishSlot, recordOutcome] at h
        | exc msg => simp [finishSlot, recordOutcome] at h
      · rw [assocLookup_updateAt_ne id1 id (finishSlot o now) m.tasks hi]
        intro h
        exact h
    · exact h

theorem processing_after_cancel (m : BackgroundTaskManager) (id1 now id : Nat)
    (h : statusOf (cancel_task m id1 now).2 id = some TaskStatus.processing) :
    statusOf m id = some TaskStatus.processing := by
  rw [cancel_task] at h
  split at h
  · exact h
  · split at h
    · exact h
    · next slot hlk hg =>
      revert h
      show ((assocLookup id (updateAt id1 (cancelSlot now) m.tasks)).map
        fun s => s.task.status) = _ → _
      by_cases hi : id = id1
      · subst hi
        rw [assocLookup_updateAt, hlk]
        intro h
        simp [cancelSlot] at h
      · rw [assocLookup_updateAt_ne id1 id (cancelSlot now) m.tasks hi]
        intro h
        exact h

theorem processing_after_beginProc (m : BackgroundTaskManager) (id1 id : Nat)
    (h : statusOf (beginProcessing m id1) id = some TaskStatus.processing)
    (hnot : statusOf m id ≠ some TaskStatus.processing) :
    id1 = id ∧ phaseOf m id = some ExecPhase.admitted := by
  rw [beginProcessing] at h
  split at h
  · exact absurd h hnot
  · split at h
    · next slot hlk hg =>
      by_cases hi : id = id1
      · subst hi
        refine ⟨rfl, ?_⟩
        unfold phaseOf
        rw [hlk]
        simp [hg]
      · exfalso
        apply hnot
        revert h
        show ((assocLookup id (updateAt id1 processSlot m.tasks)).map
          fun s => s.task.status) = _ → _
        rw [assocLookup_updateAt_ne id1 id processSlot m.tasks hi]
        intro h
        exact h
    · exact absurd h hnot

theorem stepTask_maxConcurrent (m : BackgroundTaskManager) (a : TaskAction) :
    (stepTask m a).maxConcurrent = m.maxConcurrent := by
  cases a with
  | submit id now =>
    show (submit m id now).maxConcurrent = m.maxConcurrent
    rw [submit]
    split
    · rfl
    · rfl
  | acquire id =>
    show (acquireSem m id).maxConcurrent = m.maxConcurrent
    rw [acquireSem]
    split
    · rfl
    · split
      · rfl
      · rfl
  | beginProc id =>
    show (beginProcessing m id).maxConcurrent = m.maxConcurrent
    rw [beginProcessing]
    split
    · rfl
    · split
      · rfl
      · rfl
  | finish id o now =>
    show (finishExec m id o now).maxConcurrent = m.maxConcurrent
    rw [finishExec]
    split
    · rfl
    · split
      · rfl
      · rfl
  | cancel id now =>
    show (cancel_task m id now).2.maxConcurrent = m.maxConcurrent
    rw [cancel_task]
    split
    · rfl
    · split
      · rfl
      · rfl
  | updateProg id p =>
    show (update_progress m id p).2.maxConcurrent = m.maxConcurrent
    rw [update_progress]
    split
    · rfl
    · rfl

theorem runTasks_maxConcurrent (m : BackgroundTaskManager) (acts : List TaskAction) :
    (runTasks m acts).maxConcurrent = m.maxConcurrent := by
  induction acts generalizing m with
  | nil => rfl
  | cons a rest ih =>
    have h1 : runTasks m (a :: rest) = runTasks (stepTask m a) rest := rfl
    rw [h1, ih (stepTask m a), stepTask_maxConcurrent]

/-- C2: for every schedule over a manager created with bound
`maxConcurrent`, at no instant do more than `maxConcurrent` tasks hold
status Processing; and the only event that moves a task into Processing is
the `status = PROCESSING` write of its `_execute` coroutine, which fires
only when the coroutine has just been admitted by the semaphore — never at
submission time. -/
theorem C2_concurrency_bound :
    (∀ (maxConcurrent : Nat) (acts : List TaskAction),
      countProcessing (runTasks (initManager maxConcurrent) acts) ≤ maxConcurrent) ∧
    (∀ (m : BackgroundTaskManager) (a : TaskAction) (id : Nat),
      statusOf m id ≠ some TaskStatus.processing →
      statusOf (stepTask m a) id = some TaskStatus.processing →
      a = TaskAction.beginProc id ∧ phaseOf m id = some ExecPhase.admitted) := by
  constructor
  · intro maxC acts
    obtain ⟨hnd, hsem, hproc⟩ := taskInv_run (initManager maxC) acts (taskInv_init maxC)
    have hle := countProcessing_le_holders _ hproc
    have hmc := runTasks_maxConcurrent (initManager maxC) acts
    rw [show (initManager maxC).maxConcurrent = maxC from rfl] at hmc
    omega
  · intro m a id hnot hafter
    cases a with
    | submit id1 now =>
      exact absurd (processing_after_submit m id1 now id hafter) hnot
    | acquire id1 =>
      rw [show stepTask m (TaskAction.acquire id1) = acquireSem m id1 from rfl,
        statusOf_acquireSem] at hafter
      exact absurd hafter hnot
    | beginProc id1 =>
      obtain ⟨h1, h2⟩ := processing_after_beginProc m id1 id hafter hnot
      exact ⟨by rw [h1], h2⟩
    | finish id1 o now =>
      exact absurd (processing_after_finish m id1 o now id hafter) hnot
    | cancel id1 now =>
      exact absurd (processing_after_cancel m id1 now id hafter) hnot
    | updateProg id1 p =>
      rw [show stepTask m (TaskAction.updateProg id1 p) =
        (update_progress m id1 p).2 from rfl, statusOf_updateProg] at hafter
      exact absurd hafter hnot

/-- A schedule submitting two tasks to a bound-1 manager and trying to
admit and start both. -/
def demoActs : List TaskAction :=
  [TaskAction.submit 0 0, TaskAction.submit 1 0, TaskAction.acquire 0,
   TaskAction.beginProc 0, TaskAction.acquire 1, TaskAction.beginProc 1]

/-- The state of the demo schedule just after task 0 was admitted. -/
def demoMid : BackgroundTaskManager :=
  runTasks (initManager 1) [TaskAction.submit 0 0, TaskAction.acquire 0]

/-- C2 witness: two tasks submitted to a bound-1 manager never hold more
than one Processing slot, and the concrete Processing transition of task 0
happens at its `beginProc` event, from phase `admitted`. -/
theorem C2_concurrency_bound_witness :
    countProcessing (runTasks (initManager 1) demoActs) ≤ 1 ∧
    (TaskAction.beginProc 0 = TaskAction.beginProc 0 ∧
      phaseOf demoMid 0 = some ExecPhase.admitted) :=
  ⟨C2_concurrency_bound.1 1 demoActs,
   C2_concurrency_bound.2 demoMid (TaskAction.beginProc 0) 0
     (by decide) (by decide)⟩

/-- A task's stored result, when the task is known. -/
def resultOf (m : BackgroundTaskManager) (id : Nat) : Option (Option Nat) :=
  (assocLookup id m.tasks).map fun s => s.task.result

/-- A bound-1 manager with one freshly submitted task. -/
def mgrSubmitted : BackgroundTaskManager :=
  runTasks (initManager 1) [TaskAction.submit 0 0]

/-- The same manager after `cancel_task` succeeded on the Pending task. -/
def mgrCancelled : BackgroundTaskManager := (cancel_task mgrSubmitted 0 1).2

/-- C1 (violated by the code): a task cancelled while Pending is terminal
(Failed, error `"Cancelled by user"`), yet the already-scheduled
`_execute` coroutine is later admitted, unconditionally rewrites the
status to Processing, and finally overwrites the terminal state with the
executor's result — the Failed → Processing transition the claim forbids
does occur. -/
theorem C1_cancelled_task_reenters_processing :
    (cancel_task mgrSubmitted 0 1).1 = true ∧
    statusOf mgrCancelled 0 = some TaskStatus.failed ∧
    errorOf mgrCancelled 0 = some (some "Cancelled by user") ∧
    statusOf (runTasks mgrCancelled
      [TaskAction.acquire 0, TaskAction.beginProc 0]) 0 =
        some TaskStatus.processing ∧
    statusOf (runTasks mgrCancelled
      [TaskAction.acquire 0, TaskAction.beginProc 0,
       TaskAction.finish 0 (ExecOutcome.ok 42) 2]) 0 =
        some TaskStatus.completed ∧
    resultOf (runTasks mgrCancelled
      [TaskAction.acquire 0, TaskAction.beginProc 0,
       TaskAction.finish 0 (ExecOutcome.ok 42) 2]) 0 = some (some 42) := by
  decide

/-- `finishExec` under a satisfied guard. -/
theorem finishExec_eq (m : BackgroundTaskManager) (id : Nat) (o : ExecOutcome)
    (now : Nat) (slot : TaskSlot) (hlk : assocLookup id m.tasks = some slot)
    (hph : slot.phase = ExecPhase.runningExec) :
    finishExec m id o now = { m with semAvail := m.semAvail + 1, tasks := updateAt id (finishSlot o now) m.tasks } := by
  rw [finishExec]
  split
  · next heq => rw [heq] at hlk; exact Option.noConfusion hlk
  · next slot2 heq =>
    rw [heq] at hlk
    rw [← Option.some_inj.mp hlk] at hph
    rw [if_pos hph]

/-- C3: an executor that raises is caught by `_execute`: the exception
message is stored verbatim in `error`, the task is marked Failed with a
completion time, and `finishExec` is a total function back into the
manager state — nothing propagates to the submitter and the orchestrator
keeps running. -/
theorem C3_exception_caught (m : BackgroundTaskManager) (id : Nat)
    (msg : String) (now : Nat) (slot : TaskSlot)
    (hlk : assocLookup id m.tasks = some slot)
    (hph : slot.phase = ExecPhase.runningExec) :
    statusOf (finishExec m id (ExecOutcome.exc msg) now) id =
      some TaskStatus.failed ∧
    errorOf (finishExec m id (ExecOutcome.exc msg) now) id = some (some msg) := by
  rw [finishExec_eq m id (ExecOutcome.exc msg) now slot hlk hph]
  constructor
  · show ((assocLookup id (updateAt id (finishSlot (ExecOutcome.exc msg) now)
      m.tasks)).map fun s => s.task.status) = some TaskStatus.failed
    rw [assocLookup_updateAt, hlk]
    rfl
  · show ((assocLookup id (updateAt id (finishSlot (ExecOutcome.exc msg) now)
      m.tasks)).map fun s => s.task.error) = some (some msg)
    rw [assocLookup_updateAt, hlk]
    rfl

/-- The demo manager with its single task admitted and running. -/
def mgrProc : BackgroundTaskManager :=
  runTasks (initManager 1)
    [TaskAction.submit 0 0, TaskAction.acquire 0, TaskAction.beginProc 0]

/-- C3 witness: the running demo task raising `ValueError("boom")` ends
Failed with error text `"boom"`. -/
theorem C3_exception_caught_witness :
    statusOf (finishExec mgrProc 0 (ExecOutcome.exc "boom") 2) 0 =
      some TaskStatus.failed ∧
    errorOf (finishExec mgrProc 0 (ExecOutcome.exc "boom") 2) 0 =
      some (some "boom") :=
  C3_exception_caught mgrProc 0 "boom" 2
    ⟨⟨TaskStatus.processing, 0, none, none, none, 0⟩, ExecPhase.runningExec⟩
    (by decide) (by decide)

/-- C4: `cancel_task` returns true exactly when the job exists and is
still Pending at call time; in every other case (Processing, terminal, or
unknown id) it returns false and the whole manager state — statuses,
results, errors, completion times — is left untouched. -/
theorem C4_cancel_iff_pending (m : BackgroundTaskManager) (id now : Nat) :
    ((cancel_task m id now).1 = true ↔
      ∃ slot, assocLookup id m.tasks = some slot ∧
        slot.task.status = TaskStatus.pending) ∧
    ((cancel_task m id now).1 = false → (cancel_task m id now).2 = m) := by
  rw [cancel_task]
  split
  · next heq =>
    refine ⟨⟨fun h => absurd h (by simp), ?_⟩, fun _ => rfl⟩
    rintro ⟨slot, hs, _⟩
    rw [heq] at hs
    exact Option.noConfusion hs
  · next slot heq =>
    split
    · next hg =>
      refine ⟨⟨fun h => absurd h (by simp), ?_⟩, fun _ => rfl⟩
      rintro ⟨slot2, hs, hp⟩
      rw [heq] at hs
      rw [← Option.some_inj.mp hs] at hp
      exact absurd hp hg
    · next hg =>
      refine ⟨⟨fun _ => ⟨slot, heq, not_not.mp hg⟩, fun _ => rfl⟩, ?_⟩
      intro h
      simp at h

/-- C4 witness: cancelling the Pending demo task succeeds; cancelling an
unknown id returns false and changes nothing. -/
theorem C4_cancel_iff_pending_witness :
    (cancel_task mgrSubmitted 0 1).1 = true ∧
    (cancel_task mgrSubmitted 7 1).1 = false ∧
    (cancel_task mgrSubmitted 7 1).2 = mgrSubmitted := by
  refine ⟨?_, ?_, ?_⟩
  · exact (C4_cancel_iff_pending mgrSubmitted 0 1).1.mpr
      ⟨⟨⟨TaskStatus.pending, 0, none, none, none, 0⟩, ExecPhase.waitingSem⟩,
       by decide, rfl⟩
  · decide
  · exact (C4_cancel_iff_pending mgrSubmitted 7 1).2 (by decide)

/-- C5 (amended): `update_progress` stores the clamp of its input into
`[0, 100]` (−5 saturates to 0, 150 to 100) and is a non-erroring no-op for
unknown job ids; the stored progress is simply the clamp of the most
recent input — the code does not enforce monotonicity, so progress is
non-decreasing only when the supplied inputs are (see the
counterexample). -/
theorem C5_update_progress_clamps (m : BackgroundTaskManager) (id : Nat)
    (p : Int) :
    (assocLookup id m.tasks = none → update_progress m id p = (false, m)) ∧
    (∀ slot, assocLookup id m.tasks = some slot →
      (update_progress m id p).1 = true ∧
      progressOf (update_progress m id p).2 id = some (min (max p 0) 100)) ∧
    min (max (-5 : Int) 0) 100 = 0 ∧ min (max (150 : Int) 0) 100 = 100 := by
  refine ⟨?_, ?_, by decide, by decide⟩
  · intro hnone
    rw [update_progress, hnone]
  · intro slot hlk
    rw [update_progress]
    split
    · next heq => rw [heq] at hlk; exact Option.noConfusion hlk
    · next slot2 heq =>
      refine ⟨rfl, ?_⟩
      show ((assocLookup id (updateAt id (progressSlot p) m.tasks)).map
        fun s => s.task.progress) = some (min (max p 0) 100)
      rw [assocLookup_updateAt, hlk]
      rfl

/-- The running demo task after `update_progress(50)`. -/
def mgrP50 : BackgroundTaskManager := (update_progress mgrProc 0 50).2

/-- …and after a subsequent `update_progress(30)`. -/
def mgrP30 : BackgroundTaskManager := (update_progress mgrP50 0 30).2

/-- C5 counterexample: on a Processing task, `update_progress(50)` then
`update_progress(30)` leaves stored progress 30 < 50 — progress is not
monotonically non-decreasing across successive calls. -/
theorem C5_counterexample_monotonicity :
    statusOf mgrP50 0 = some TaskStatus.processing ∧
    progressOf mgrP50 0 = some 50 ∧
    statusOf mgrP30 0 = some TaskStatus.processing ∧
    progressOf mgrP30 0 = some 30 ∧ (30 : Int) < 50 := by
  decide

/-- C5 witness: unknown id is a no-op returning false; input −5 on the
running demo task stores the clamp of −5, which is 0. -/
theorem C5_update_progress_clamps_witness :
    update_progress (initManager 1) 7 50 = (false, initManager 1) ∧
    (update_progress mgrProc 0 (-5)).1 = true ∧
    progressOf (update_progress mgrProc 0 (-5)).2 0 =
      some (min (max (-5 : Int) 0) 100) ∧
    min (max (-5 : Int) 0) 100 = 0 := by
  obtain ⟨hnone1, _, _, _⟩ := C5_update_progress_clamps (initManager 1) 7 50
  obtain ⟨_, hsome, hneg, _⟩ := C5_update_progress_clamps mgrProc 0 (-5)
  obtain ⟨h1, h2⟩ := hsome
    ⟨⟨TaskStatus.processing, 0, none, none, none, 0⟩, ExecPhase.runningExec⟩
    (by decide)
  exact ⟨hnone1 rfl, h1, h2, hneg⟩

/-! ## `WebhookService` (backend/services/webhook_service.py) -/

/-- `WebhookConfig` from `webhook_service.py` (fields the delivery logic
touches; `secret`/`metadata` are omitted as no claim concerns them). -/
structure WebhookConfig where
  id : String
  user_id : Nat
  url : String
  events : List String
  active : Bool := true
  last_triggered_at : Option Nat := none
  failure_count : Nat := 0
  deriving DecidableEq, Repr

/-- `WebhookDeliveryResult` from `webhook_service.py`.  `duration_ms` is
wall-clock timing and is not modelled (always 0). -/
structure WebhookDeliveryResult where
  success : Bool
  webhook_id : String
  event : String
  status_code : Option Nat := none
  response_body : Option String := none
  error : Option String := none
  attempts : Nat := 1
  duration_ms : Nat := 0
  deriving DecidableEq, Repr

/-- `WebhookService` state: the registrations keyed by webhook id and the
retry configuration. -/
structure WebhookService where
  webhooks : List (String × WebhookConfig)
  max_retries : Nat := 3
  retry_delay : ℚ := 1
  deriving DecidableEq, Repr

/-- What one HTTP POST attempt observes: a response with a status code
and body, or one of the three caught transport errors. -/
inductive HttpAttempt where
  | resp (status : Nat) (body : String)
  | timeout
  | requestError (msg : String)
  | otherError (msg : String)
  deriving DecidableEq, Repr

/-- The `200 <= status_code < 300` success test. -/
def is2xx : HttpAttempt → Bool
  | HttpAttempt.resp status _ => 200 ≤ status && status < 300
  | _ => false

/-- The `last_error` string recorded for a failed attempt, mirroring the
three `except` branches and the non-2xx case. -/
def attemptError : HttpAttempt → String
  | HttpAttempt.resp status body =>
      "HTTP " ++ toString status ++ ": " ++ (body.take 200)
  | HttpAttempt.timeout => "Timeout na requisição"
  | HttpAttempt.requestError msg => "Erro de conexão: " ++ msg
  | HttpAttempt.otherError msg => "Erro inesperado: " ++ msg

/-- Outcome of the retry loop of `send_webhook`. -/
inductive LoopOut where
  | success (attempts status : Nat) (body : String)
  | exhausted (attempts : Nat) (lastError : Option String)
  deriving DecidableEq, Repr

/-- The observable trace of the retry loop: its outcome, how many HTTP
POSTs were issued, and the sleeps performed between attempts. -/
structure SendTrace where
  out : LoopOut
  posts : Nat
  sleeps : List ℚ
  deriving DecidableEq, Repr

/-- The `for attempt in range(self._max_retries)` loop of `send_webhook`.
`responses` gives what the endpoint does on each attempt index; `attempt`
is the current index, `remaining` the iterations left, `lastError` the
error recorded so far.  A 2xx response returns immediately; otherwise the
loop sleeps `retry_delay * 2 ^ attempt` (skipped after the final attempt)
and retries. -/
def runAttempts (responses : Nat → HttpAttempt) (retryDelay : ℚ) :
    (attempt remaining : Nat) → (lastError : Option String) → SendTrace
  | a, 0, le => { out := LoopOut.exhausted a le, posts := 0, sleeps := [] }
  | a, r + 1, le =>
    match is2xx (responses a) with
    | true =>
      match responses a with
      | HttpAttempt.resp status body =>
        { out := LoopOut.success (a + 1) status body, posts := 1, sleeps := [] }
      | _ => { out := LoopOut.exhausted (a + 1) le, posts := 1, sleeps := [] }
    | false =>
      let le2 := some (attemptError (responses a))
      if r = 0 then
        { out := LoopOut.exhausted (a + 1) le2, posts := 1, sleeps := [] }
      else
        let rest := runAttempts responses retryDelay (a + 1) r le2
        { out := rest.out, posts := rest.posts + 1,
          sleeps := retryDelay * 2 ^ a :: rest.sleeps }

/-- Mutation of the registration on a 2xx delivery: stamp
`last_triggered_at` and reset `failure_count` to 0. -/
def successUpdate (now : Nat) (w : WebhookConfig) : WebhookConfig :=
  { w with last_triggered_at := some now, failure_count := 0 }

/-- Mutation of the registration when every attempt failed:
`failure_count += 1`, and the webhook is deactivated once it reaches the
fixed threshold 10. -/
def failureUpdate (w : WebhookConfig) : WebhookConfig :=
  { w with failure_count := w.failure_count + 1,
           active := if w.failure_count + 1 ≥ 10 then false else w.active }

/-- `send_webhook` from `webhook_service.py`.  Returns the
`WebhookDeliveryResult`, the service state after the call, the number of
HTTP POSTs actually issued, and the list of backoff sleeps performed.
The three early returns (unknown id, inactive, unsubscribed event) issue
no POST; the dataclass default `attempts := 1` applies to them, as in the
source. -/
def send_webhook (svc : WebhookService) (webhook_id event : String)
    (responses : Nat → HttpAttempt) (now : Nat) :
    WebhookDeliveryResult × WebhookService × Nat × List ℚ :=
  match assocLookup webhook_id svc.webhooks with
  | none =>
    ({ success := false, webhook_id := webhook_id, event := event,
       error := some "Webhook não encontrado" }, svc, 0, [])
  | some webhook =>
    if webhook.active = false then
      ({ success := false, webhook_id := webhook_id, event := event,
         error := some "Webhook desativado" }, svc, 0, [])
    else if event ∈ webhook.events then
      match runAttempts responses svc.retry_delay 0 svc.max_retries none with
      | { out := LoopOut.success att status body, posts := posts, sleeps := sleeps } =>
        ({ success := true, webhook_id := webhook_id, event := event,
           status_code := some status, response_body := some (body.take 500),
           attempts := att },
         { svc with webhooks := updateAt webhook_id (successUpdate now) svc.webhooks },
         posts, sleeps)
      | { out := LoopOut.exhausted att le, posts := posts, sleeps := sleeps } =>
        ({ success := false, webhook_id := webhook_id, event := event,
           error := le, attempts := att },
         { svc with webhooks := updateAt webhook_id failureUpdate svc.webhooks },
         posts, sleeps)
    else
      ({ success := false, webhook_id := webhook_id, event := event,
         error := some ("Evento " ++ event ++ " não configurado para este webhook") },
       svc, 0, [])

theorem runAttempts_all_fail (responses : Nat → HttpAttempt) (d : ℚ)
    (hfail : ∀ k, is2xx (responses k) = false) :
    ∀ (n a : Nat) (le : Option String), ∃ e,
      runAttempts responses d a n le =
        { out := LoopOut.exhausted (a + n) e, posts := n,
          sleeps := (List.range (n - 1)).map fun j => d * 2 ^ (a + j) } := by
  intro n
  induction n with
  | zero =>
    intro a le
    exact ⟨le, by simp [runAttempts]⟩
  | succ r ih =>
    intro a le
    cases r with
    | zero =>
      refine ⟨some (attemptError (responses a)), ?_⟩
      simp [runAttempts, hfail a]
    | succ s =>
      obtain ⟨e, he⟩ := ih (a + 1) (some (attemptError (responses a)))
      refine ⟨e, ?_⟩
      have hsl : (List.range (s + 1)).map (fun j => d * 2 ^ (a + j)) =
          d * 2 ^ a :: (List.range s).map fun j => d * 2 ^ (a + 1 + j) := by
        rw [List.range_succ_eq_map, List.map_cons, List.map_map]
        have hfun : ((fun j => d * 2 ^ (a + j)) ∘ Nat.succ) =
            fun j => d * 2 ^ (a + 1 + j) := by
          funext j
          show d * 2 ^ (a + (j + 1)) = d * 2 ^ (a + 1 + j)
          rw [show a + (j + 1) = a + 1 + j from by omega]
        rw [hfun, Nat.add_zero]
      rw [runAttempts, hfail a]
      dsimp only
      rw [if_neg (Nat.succ_ne_zero s), he]
      dsimp only
      rw [show a + 1 + (s + 1) = a + (s + 1 + 1) from by omega]
      simp only [Nat.add_sub_cancel]
      rw [← hsl]

theorem runAttempts_first_2xx (responses : Nat → HttpAttempt) (d : ℚ) :
    ∀ (k n a : Nat) (le : Option String) (status : Nat) (body : String),
      k < n → responses (a + k) = HttpAttempt.resp status body →
      200 ≤ status → status < 300 →
      (∀ j, j < k → is2xx (responses (a + j)) = false) →
      runAttempts responses d a n le =
        { out := LoopOut.success (a + k + 1) status body, posts := k + 1,
          sleeps := (List.range k).map fun j => d * 2 ^ (a + j) } := by
  intro k
  induction k with
  | zero =>
    intro n a le status body hkn hresp hlo hhi hprev
    cases n with
    | zero => exact absurd hkn (by omega)
    | succ r =>
      rw [Nat.add_zero] at hresp
      have h2 : is2xx (HttpAttempt.resp status body) = true := by
        simp [is2xx, hlo, hhi]
      simp [runAttempts, hresp, h2]
  | succ t ih =>
    intro n a le status body hkn hresp hlo hhi hprev
    cases n with
    | zero => exact absurd hkn (by omega)
    | succ r =>
      have hf0 : is2xx (responses a) = false := by
        have := hprev 0 (Nat.succ_pos t)
        rwa [Nat.add_zero] at this
      have hrne : r ≠ 0 := by omega
      have hsl : (List.range (t + 1)).map (fun j => d * 2 ^ (a + j)) =
          d * 2 ^ a :: (List.range t).map fun j => d * 2 ^ (a + 1 + j) := by
        rw [List.range_succ_eq_map, List.map_cons, List.map_map]
        have hfun : ((fun j => d * 2 ^ (a + j)) ∘ Nat.succ) =
            fun j => d * 2 ^ (a + 1 + j) := by
          funext j
          show d * 2 ^ (a + (j + 1)) = d * 2 ^ (a + 1 + j)
          rw [show a + (j + 1) = a + 1 + j from by omega]
        rw [hfun, Nat.add_zero]
      rw [runAttempts, hf0]
      dsimp only
      rw [if_neg hrne]
      rw [ih r (a + 1) (some (attemptError (responses a))) status body
        (by omega)
        (by rw [show a + 1 + t = a + (t + 1) from by omega]; exact hresp)
        hlo hhi
        (fun j hj => by
          have := hprev (j + 1) (by omega)
          rwa [show a + (j + 1) = a + 1 + j from by omega] at this)]
      dsimp only
      rw [show a + 1 + t = a + (t + 1) from by omega]
      rw [← hsl]

/-- `send_webhook` on a registered, active, subscribed webhook whose
endpoint fails on every attempt. -/
theorem send_webhook_all_fail (svc : WebhookService) (id event : String)
    (responses : Nat → HttpAttempt) (now : Nat) (w : WebhookConfig)
    (hlk : assocLookup id svc.webhooks = some w)
    (hact : w.active = true) (hev : event ∈ w.events)
    (hfail : ∀ k, is2xx (responses k) = false) :
    ∃ e, send_webhook svc id event responses now =
      ({ success := false, webhook_id := id, event := event, error := e,
         attempts := svc.max_retries },
       { svc with webhooks := updateAt id failureUpdate svc.webhooks },
       svc.max_retries,
       (List.range (svc.max_retries - 1)).map fun j => svc.retry_delay * 2 ^ j) := by
  obtain ⟨e, he⟩ :=
    runAttempts_all_fail responses svc.retry_delay hfail svc.max_retries 0 none
  simp only [Nat.zero_add] at he
  refine ⟨e, ?_⟩
  rw [send_webhook, hlk]
  dsimp only
  rw [if_neg (show ¬ w.active = false from by simp [hact]), if_pos hev, he]

/-- `send_webhook` when the first 2xx arrives on attempt index `k`. -/
theorem send_webhook_first_2xx (svc : WebhookService) (id event : String)
    (responses : Nat → HttpAttempt) (now : Nat) (w : WebhookConfig)
    (k status : Nat) (body : String)
    (hlk : assocLookup id svc.webhooks = some w)
    (hact : w.active = true) (hev : event ∈ w.events)
    (hk : k < svc.max_retries)
    (hresp : responses k = HttpAttempt.resp status body)
    (hlo : 200 ≤ status) (hhi : status < 300)
    (hprev : ∀ j, j < k → is2xx (responses j) = false) :
    send_webhook svc id event responses now =
      ({ success := true, webhook_id := id, event := event,
         status_code := some status, response_body := some (body.take 500),
         attempts := k + 1 },
       { svc with webhooks := updateAt id (successUpdate now) svc.webhooks },
       k + 1,
       (List.range k).map fun j => svc.retry_delay * 2 ^ j) := by
  have he := runAttempts_first_2xx responses svc.retry_delay k svc.max_retries 0
    none status body hk (by rwa [Nat.zero_add]) hlo hhi
    (fun j hj => by rw [Nat.zero_add]; exact hprev j hj)
  simp only [Nat.zero_add] at he
  rw [send_webhook, hlk]
  dsimp only
  rw [if_neg (show ¬ w.active = false from by simp [hact]), if_pos hev, he]

/-- C6: for a registered, active webhook subscribed to the event, (a) when
the endpoint fails on every attempt, delivery is attempted exactly
`max_retries` times with exponential backoff sleeps
`retry_delay * 2 ^ attempt` between attempts, the result has
`success = false` and `attempts = max_retries`, and the registration's
`failure_count` increases by exactly 1 for the whole call; (b) a 2xx
response on any attempt is terminal success: the loop stops at that
attempt. -/
theorem C6_retry_semantics (svc : WebhookService) (id event : String)
    (responses : Nat → HttpAttempt) (now : Nat) (w : WebhookConfig)
    (hlk : assocLookup id svc.webhooks = some w)
    (hact : w.active = true) (hev : event ∈ w.events) :
    ((∀ k, is2xx (responses k) = false) →
      (send_webhook svc id event responses now).1.success = false ∧
      (send_webhook svc id event responses now).1.attempts = svc.max_retries ∧
      (send_webhook svc id event responses now).2.2.1 = svc.max_retries ∧
      (send_webhook svc id event responses now).2.2.2 =
        (List.range (svc.max_retries - 1)).map (fun j => svc.retry_delay * 2 ^ j) ∧
      assocLookup id (send_webhook svc id event responses now).2.1.webhooks =
        some (failureUpdate w) ∧
      (failureUpdate w).failure_count = w.failure_count + 1) ∧
    (∀ (k status : Nat) (body : String), k < svc.max_retries →
      responses k = HttpAttempt.resp status body →
      200 ≤ status → status < 300 →
      (∀ j, j < k → is2xx (responses j) = false) →
      (send_webhook svc id event responses now).1.success = true ∧
      (send_webhook svc id event responses now).1.attempts = k + 1 ∧
      (send_webhook svc id event responses now).2.2.1 = k + 1) := by
  constructor
  · intro hfail
    obtain ⟨e, he⟩ :=
      send_webhook_all_fail svc id event responses now w hlk hact hev hfail
    rw [he]
    refine ⟨rfl, rfl, rfl, rfl, ?_, rfl⟩
    show assocLookup id (updateAt id failureUpdate svc.webhooks) =
      some (failureUpdate w)
    rw [assocLookup_updateAt, hlk]
    rfl
  · intro k status body hk hresp hlo hhi hprev
    rw [send_webhook_first_2xx svc id event responses now w k status body
      hlk hact hev hk hresp hlo hhi hprev]
    exact ⟨rfl, rfl, rfl⟩

/-- C7: `failure_count` reaching the fixed threshold 10 after a terminally
failed delivery forces `active = false`; and a send to an inactive
registration fails fast — `success = false`, zero HTTP POSTs, no sleeps,
and the service state (hence `failure_count`) is untouched. -/
theorem C7_threshold_and_fast_fail (svc : WebhookService) (id event : String)
    (responses : Nat → HttpAttempt) (now : Nat) (w : WebhookConfig)
    (hlk : assocLookup id svc.webhooks = some w) :
    (w.active = true → event ∈ w.events → (∀ k, is2xx (responses k) = false) →
      assocLookup id (send_webhook svc id event responses now).2.1.webhooks =
        some (failureUpdate w) ∧
      (failureUpdate w).failure_count = w.failure_count + 1 ∧
      (10 ≤ w.failure_count + 1 → (failureUpdate w).active = false)) ∧
    (w.active = false →
      (send_webhook svc id event responses now).1.success = false ∧
      (send_webhook svc id event responses now).2.1 = svc ∧
      (send_webhook svc id event responses now).2.2.1 = 0 ∧
      (send_webhook svc id event responses now).2.2.2 = []) := by
  constructor
  · intro hact hev hfail
    obtain ⟨e, he⟩ :=
      send_webhook_all_fail svc id event responses now w hlk hact hev hfail
    rw [he]
    refine ⟨?_, rfl, ?_⟩
    · show assocLookup id (updateAt id failureUpdate svc.webhooks) =
        some (failureUpdate w)
      rw [assocLookup_updateAt, hlk]
      rfl
    · intro hthr
      show (if w.failure_count + 1 ≥ 10 then false else w.active) = false
      rw [if_pos hthr]
  · intro hinact
    rw [send_webhook, hlk]
    dsimp only
    rw [if_pos hinact]
    exact ⟨rfl, rfl, rfl, rfl⟩

/-- A registered webhook subscribed to `task.completed`. -/
def whDemo : WebhookConfig :=
  { id := "w1", user_id := 1, url := "https://example.com/hook",
    events := ["task.completed"] }

/-- A service with default retry settings holding `whDemo`. -/
def svcDemo : WebhookService := { webhooks := [("w1", whDemo)] }

/-- An endpoint answering HTTP 500 on every attempt. -/
def always500 : Nat → HttpAttempt := fun _ => HttpAttempt.resp 500 "oops"

/-- C6 witness: the always-500 endpoint on the demo service. -/
theorem C6_retry_semantics_witness :
    (send_webhook svcDemo "w1" "task.completed" always500 9).1.success = false ∧
    (send_webhook svcDemo "w1" "task.completed" always500 9).1.attempts =
      svcDemo.max_retries ∧
    (send_webhook svcDemo "w1" "task.completed" always500 9).2.2.1 =
      svcDemo.max_retries ∧
    (send_webhook svcDemo "w1" "task.completed" always500 9).2.2.2 =
      (List.range (svcDemo.max_retries - 1)).map
        (fun j => svcDemo.retry_delay * 2 ^ j) ∧
    assocLookup "w1"
        (send_webhook svcDemo "w1" "task.completed" always500 9).2.1.webhooks =
      some (failureUpdate whDemo) ∧
    (failureUpdate whDemo).failure_count = whDemo.failure_count + 1 :=
  (C6_retry_semantics svcDemo "w1" "task.completed" always500 9 whDemo rfl rfl
    (by decide)).1 (fun k => rfl)

/-- The registration one failed delivery away from the threshold. -/
def whNine : WebhookConfig :=
  { id := "w9", user_id := 1, url := "https://example.com/hook",
    events := ["task.completed"], failure_count := 9 }

/-- A service holding `whNine`. -/
def svcNine : WebhookService := { webhooks := [("w9", whNine)] }

/-- A deactivated registration. -/
def whOff : WebhookConfig :=
  { id := "w0", user_id := 1, url := "https://example.com/hook",
    events := ["task.completed"], active := false }

/-- A service holding `whOff`. -/
def svcOff : WebhookService := { webhooks := [("w0", whOff)] }

/-- C7 witness: the tenth consecutive failure deactivates `whNine`, and a
send to the inactive `whOff` fails fast with zero POSTs and no mutation. -/
theorem C7_threshold_and_fast_fail_witness :
    ((failureUpdate whNine).active = false ∧
     assocLookup "w9"
         (send_webhook svcNine "w9" "task.completed" always500 9).2.1.webhooks =
       some (failureUpdate whNine)) ∧
    ((send_webhook svcOff "w0" "task.completed" always500 9).1.success = false ∧
     (send_webhook svcOff "w0" "task.completed" always500 9).2.1 = svcOff ∧
     (send_webhook svcOff "w0" "task.completed" always500 9).2.2.1 = 0) := by
  obtain ⟨h1, _, h3⟩ :=
    (C7_threshold_and_fast_fail svcNine "w9" "task.completed" always500 9
      whNine rfl).1 rfl (by decide) (fun k => rfl)
  obtain ⟨g1, g2, g3, _⟩ :=
    (C7_threshold_and_fast_fail svcOff "w0" "task.completed" always500 9
      whOff rfl).2 rfl
  exact ⟨⟨h3 (by decide), h1⟩, g1, g2, g3⟩
